import Mathlib

/-!
# Verification of the FR triage pipeline core

Shallow embedding of the triage pipeline of `fr-triage-service`
(identifier normalization and validation, confidence filtering,
Pulse/Idea matching, LLM completion retry discipline, per-FR error
boundaries, and final audit status aggregation), together with proofs
of the specified properties.

Sources embedded:
- `src/validation/ids.ts` (`normalizeNotionId`, `validateIds`, `mergeRelationIds`)
- `src/pipeline/process-fr.ts` (`processFR`, `matchPulses`, `matchIdeas`)
- `src/pipeline/finalize.ts` (`determineAuditStatus`)
- `src/llm/client.ts` (`LLMClient.complete`)
- the per-FR loop of `runTriage`
-/

namespace FRTriage

/-! ## Id normalizer (`src/validation/ids.ts`) -/

/-- Hexadecimal digit test, mirroring the `[0-9a-fA-F]` character class of
`HEX32_RE` / `UUID_RE`. -/
def isHexD (c : Char) : Bool :=
  (('0' ≤ c ∧ c ≤ '9') ∨ ('a' ≤ c ∧ c ≤ 'f') ∨ ('A' ≤ c ∧ c ≤ 'F') : Prop)

/-- Helper `hexPrefix n cs` consumes exactly `n` hex digits from the front of `cs`
and returns the remainder, or `none`. Used to express `UUID_RE` group-wise. -/
def hexPrefix : Nat → List Char → Option (List Char)
  | 0, rest => some rest
  | n + 1, c :: rest => if isHexD c then hexPrefix n rest else none
  | _ + 1, [] => none

/-- The `UUID_RE` regex: `^hex{8}-hex{4}-hex{4}-hex{4}-hex{12}$`. -/
def uuidShapeL (cs : List Char) : Bool :=
  match hexPrefix 8 cs with
  | some ('-' :: r1) =>
    match hexPrefix 4 r1 with
    | some ('-' :: r2) =>
      match hexPrefix 4 r2 with
      | some ('-' :: r3) =>
        match hexPrefix 4 r3 with
        | some ('-' :: r4) =>
          match hexPrefix 12 r4 with
          | some [] => true
          | _ => false
        | _ => false
      | _ => false
    | _ => false
  | _ => false

/-- The `HEX32_RE` regex: `^hex{32}$`. -/
def hex32L (cs : List Char) : Bool :=
  cs.length = 32 ∧ ∀ c ∈ cs, isHexD c

/-- JS `String.prototype.trim()`: strip surrounding whitespace. -/
def trimChars (cs : List Char) : List Char :=
  ((cs.dropWhile Char.isWhitespace).reverse.dropWhile Char.isWhitespace).reverse

/-- JS `toLowerCase()` on the character list. -/
def lowerChars (cs : List Char) : List Char :=
  cs.map Char.toLower

/-- Re-insert hyphens into a 32-char hex list:
`h.slice(0,8)-h.slice(8,12)-h.slice(12,16)-h.slice(16,20)-h.slice(20)`. -/
def hyphenate (h : List Char) : List Char :=
  h.take 8 ++ '-' :: ((h.drop 8).take 4 ++ '-' ::
    ((h.drop 12).take 4 ++ '-' :: ((h.drop 16).take 4 ++ '-' :: h.drop 20)))

/-- Function `normalizeNotionId` from `src/validation/ids.ts`: trim, accept a
hyphenated UUID (lowercased as-is), otherwise strip all hyphens and accept a
32-hex string (lowercased, re-hyphenated); otherwise `null`. -/
def normalizeNotionId (raw : String) : Option String :=
  let s := trimChars raw.toList
  if uuidShapeL s then some (lowerChars s).asString
  else
    let compact := s.filter (fun c => c ≠ '-')
    if hex32L compact then some (hyphenate (lowerChars compact)).asString
    else none

example : normalizeNotionId "11111111222233334444555555555555" =
    some "11111111-2222-3333-4444-555555555555" := by decide
example : normalizeNotionId " ABCDEF00-1111-2222-3333-444455556666 " =
    some "abcdef00-1111-2222-3333-444455556666" := by decide
example : normalizeNotionId "" = none := by decide
example : normalizeNotionId "1111-invalid" = none := by decide

/-! ## Id validation and merging (`src/validation/ids.ts`) -/

/-- The loop of `validateIds`: walk `proposedIds` carrying the `seen` set
(as a list), appending to `valid`/`invalid` exactly as the source does. -/
def validateIdsGo (validSet : List String) (seen : List String) :
    List String → List String × List String
  | [] => ([], [])
  | raw :: rest =>
    match normalizeNotionId raw with
    | none =>
      let (v, i) := validateIdsGo validSet seen rest
      (v, raw :: i)
    | some norm =>
      if norm ∈ seen then validateIdsGo validSet seen rest
      else
        let (v, i) := validateIdsGo validSet (norm :: seen) rest
        if norm ∈ validSet then (norm :: v, i) else (v, raw :: i)

/-- Function `validateIds` from `src/validation/ids.ts`: normalize the known set,
then classify each proposed id into `valid`/`invalid` with first-occurrence
deduplication. -/
def validateIds (proposedIds : List String) (validIds : List String) :
    List String × List String :=
  validateIdsGo (validIds.filterMap normalizeNotionId) [] proposedIds

/-- The loop of `mergeRelationIds`: push each normalized, unseen id. -/
def mergeGo (seen : List String) : List String → List String
  | [] => []
  | raw :: rest =>
    match normalizeNotionId raw with
    | none => mergeGo seen rest
    | some norm =>
      if norm ∈ seen then mergeGo seen rest
      else norm :: mergeGo (norm :: seen) rest

/-- Function `mergeRelationIds` from `src/validation/ids.ts`: normalize and
deduplicate `existingIds ++ newIds`, preserving first-occurrence order. -/
def mergeRelationIds (existingIds newIds : List String) : List String :=
  mergeGo [] (existingIds ++ newIds)

/-- Generic first-occurrence deduplication relative to an already-seen set.
Used to state the behaviour of `validateIds` and `mergeRelationIds`. -/
def dedupFirstAux (seen : List String) : List String → List String
  | [] => []
  | x :: xs =>
    if x ∈ seen then dedupFirstAux seen xs
    else x :: dedupFirstAux (x :: seen) xs

/-- First-occurrence deduplication of a list of strings. -/
def dedupFirst (xs : List String) : List String :=
  dedupFirstAux [] xs

/-! ## Lemmas about the shape tests -/

theorem hexPrefix_eq_some :
    ∀ (n : Nat) (cs rest : List Char), hexPrefix n cs = some rest →
      ∃ pre, cs = pre ++ rest ∧ pre.length = n ∧ ∀ c ∈ pre, isHexD c := by
  intro n
  induction n with
  | zero =>
    intro cs rest h
    simp only [hexPrefix, Option.some.injEq] at h
    exact ⟨[], by simp [h]⟩
  | succ k ih =>
    intro cs rest h
    cases cs with
    | nil => simp [hexPrefix] at h
    | cons c cs' =>
      unfold hexPrefix at h
      by_cases hc : isHexD c = true
      · rw [if_pos hc] at h
        obtain ⟨pre, hcs, hlen, hhex⟩ := ih cs' rest h
        refine ⟨c :: pre, by simp [hcs], by simp [hlen], ?_⟩
        intro x hx
        rcases List.mem_cons.mp hx with h | h
        · exact h ▸ hc
        · exact hhex x h
      · rw [if_neg hc] at h
        exact absurd h (by simp)

theorem isHexD_ne_hyphen {c : Char} (h : isHexD c = true) : c ≠ '-' := by
  intro heq
  subst heq
  exact absurd h (by decide)

theorem uuidShape_decomp {cs : List Char} (h : uuidShapeL cs = true) :
    ∃ a b c d e : List Char,
      cs = a ++ '-' :: (b ++ '-' :: (c ++ '-' :: (d ++ '-' :: e))) ∧
      a.length = 8 ∧ b.length = 4 ∧ c.length = 4 ∧ d.length = 4 ∧ e.length = 12 ∧
      (∀ x ∈ a, isHexD x) ∧ (∀ x ∈ b, isHexD x) ∧ (∀ x ∈ c, isHexD x) ∧
      (∀ x ∈ d, isHexD x) ∧ (∀ x ∈ e, isHexD x) := by
  unfold uuidShapeL at h
  split at h <;> try exact Bool.noConfusion h
  next r1 heq1 =>
  split at h <;> try exact Bool.noConfusion h
  next r2 heq2 =>
  split at h <;> try exact Bool.noConfusion h
  next r3 heq3 =>
  split at h <;> try exact Bool.noConfusion h
  next r4 heq4 =>
  split at h <;> try exact Bool.noConfusion h
  next heq5 =>
  obtain ⟨a, hcs, hal, hah⟩ := hexPrefix_eq_some _ _ _ heq1
  obtain ⟨b, hr1, hbl, hbh⟩ := hexPrefix_eq_some _ _ _ heq2
  obtain ⟨c, hr2, hcl, hch⟩ := hexPrefix_eq_some _ _ _ heq3
  obtain ⟨d, hr3, hdl, hdh⟩ := hexPrefix_eq_some _ _ _ heq4
  obtain ⟨e, hr4, hel, heh⟩ := hexPrefix_eq_some _ _ _ heq5
  refine ⟨a, b, c, d, e, ?_, hal, hbl, hcl, hdl, by simpa using hel,
    hah, hbh, hch, hdh, heh⟩
  rw [hcs, hr1, hr2, hr3, hr4]
  simp

theorem hex32L_eq_true_iff (cs : List Char) :
    hex32L cs = true ↔ cs.length = 32 ∧ ∀ c ∈ cs, isHexD c := by
  simp [hex32L]

theorem hexList_filter_ne_hyphen {l : List Char} (h : ∀ x ∈ l, isHexD x) :
    l.filter (fun c => c ≠ '-') = l :=
  List.filter_eq_self.mpr (fun c hc => by
    simpa using isHexD_ne_hyphen (h c hc))

theorem toLower_hyphen : Char.toLower '-' = '-' := by decide

theorem hexList_filter_bang {l : List Char} (h : ∀ x ∈ l, isHexD x) :
    List.filter (fun x => !decide (x = '-')) l = l :=
  List.filter_eq_self.mpr (fun c hc => by
    simpa using isHexD_ne_hyphen (h c hc))

theorem hyphenate_parts (la lb lc ld le : List Char)
    (h8 : la.length = 8) (hb : lb.length = 4) (hc : lc.length = 4)
    (hd : ld.length = 4) :
    hyphenate (la ++ (lb ++ (lc ++ (ld ++ le)))) =
      la ++ '-' :: (lb ++ '-' :: (lc ++ '-' :: (ld ++ '-' :: le))) := by
  have hL12 : (la ++ lb).length = 12 := by simp [h8, hb]
  have hL16 : (la ++ lb ++ lc).length = 16 := by simp [h8, hb, hc]
  have hL20 : (la ++ lb ++ lc ++ ld).length = 20 := by simp [h8, hb, hc, hd]
  have a12 : la ++ (lb ++ (lc ++ (ld ++ le))) = (la ++ lb) ++ (lc ++ (ld ++ le)) := by
    simp [List.append_assoc]
  have a16 : (la ++ lb) ++ (lc ++ (ld ++ le)) = (la ++ lb ++ lc) ++ (ld ++ le) := by
    simp [List.append_assoc]
  have a20 : (la ++ lb ++ lc) ++ (ld ++ le) = (la ++ lb ++ lc ++ ld) ++ le := by
    simp [List.append_assoc]
  unfold hyphenate
  rw [List.take_left' h8, List.drop_left' h8, List.take_left' hb]
  rw [a12, List.drop_left' hL12, List.take_left' hc]
  rw [a16, List.drop_left' hL16, List.take_left' hd]
  rw [a20, List.drop_left' hL20]

/-! ## Pipeline data model (`src/pipeline/types.ts`, `src/llm/types.ts`)

Model confidences (JS numbers in `[0,1]`) as rationals. -/

/-- Interface `AlignmentResult` from `src/llm/types.ts`. -/
structure AlignmentResult where
  verdict : String
  confidence : ℚ
  suggested_product : String
  reason : String
deriving DecidableEq, Repr

/-- Interface `ValidatedMatch` from `src/pipeline/types.ts`. -/
structure ValidatedMatch where
  id : String
  confidence : ℚ
  reason : String
deriving DecidableEq, Repr

/-- Interface `PulseMatch` from `src/llm/types.ts` (one entry of `matches`). -/
structure PulseMatch where
  pulse_id : String
  confidence : ℚ
  reason : String
deriving DecidableEq, Repr

/-- Interface `IdeaCandidate` from `src/llm/types.ts` (one entry of `candidate_ideas`). -/
structure IdeaCandidate where
  id : String
  title : String
  why : String
deriving DecidableEq, Repr

/-- Interface `IdeaMatch` from `src/llm/types.ts` (one entry of `matched_ideas`). -/
structure IdeaMatch where
  idea_page_id : String
  confidence : ℚ
  reasoning : String
deriving DecidableEq, Repr

/-- Interface `FeatureRequest` from `src/notion/types.ts` (fields used by the pipeline). -/
structure FeatureRequest where
  id : String
  title : String
  url : String
  content : String
  existingPulseRelationIds : List String
  existingIdeaRelationIds : List String
deriving DecidableEq, Repr

/-- Interface `FRProcessingResult` from `src/pipeline/types.ts`. -/
structure FRProcessingResult where
  frId : String
  frTitle : String
  frUrl : String
  alignment : AlignmentResult
  belongsToProduct : Bool
  pulseMatches : List ValidatedMatch
  ideaMatches : List ValidatedMatch
  errors : List String
deriving DecidableEq, Repr

/-! ## Matching sub-pipelines (`src/pipeline/process-fr.ts`) -/

/-- Remove every hyphen and lowercase (the source applies a global hyphen
replace then `toLowerCase()`): the comparison key used when recovering the
original match for a validated id. -/
def stripLower (s : String) : String :=
  (lowerChars (s.toList.filter (fun c => c ≠ '-'))).asString

/-- The confidence filter of `matchPulses`: keep matches with
`m.confidence >= config.matching.pulse.confidenceThreshold`. -/
def pulseAboveThreshold (ms : List PulseMatch) (threshold : ℚ) : List PulseMatch :=
  ms.filter (fun m => decide (threshold ≤ m.confidence))

/-- The confidence filter of `matchIdeas`: keep matches with
`m.confidence >= config.matching.ideas.confidenceThreshold`. -/
def ideasAboveThreshold (ms : List IdeaMatch) (threshold : ℚ) : List IdeaMatch :=
  ms.filter (fun m => decide (threshold ≤ m.confidence))

/-- The pure content of `matchPulses` (`src/pipeline/process-fr.ts`):
misalignment short-circuit, confidence filter against the product's Pulse
threshold, id validation against the Pulse candidate ids, and construction
of the `ValidatedMatch` list. Audit writes and the relation update do not
affect the returned matches and are omitted. -/
def matchPulsesModel (belongsToProduct : Bool) (llmMatches : List PulseMatch)
    (pulseIds : List String) (threshold : ℚ) : List ValidatedMatch :=
  if !belongsToProduct then []
  else
    let aboveThreshold := pulseAboveThreshold llmMatches threshold
    let proposedIds := aboveThreshold.map (fun m => m.pulse_id)
    let valid := (validateIds proposedIds pulseIds).1
    valid.map (fun id =>
      match aboveThreshold.find? (fun m => stripLower m.pulse_id == stripLower id) with
      | some original => ⟨id, original.confidence, original.reason⟩
      | none => ⟨id, 0, ""⟩)

/-- The Idea candidate ids that survive shortlist validation and the
best-effort content fetch (`fetchOk` models which `getPageContent` calls
succeed), i.e. the candidate set offered to the Idea-matching model call. -/
def ideaShortlistSurvivors (shortlistIds : List String)
    (ideaUniverseIds : List String) (fetchOk : String → Bool) : List String :=
  ((validateIds shortlistIds ideaUniverseIds).1).filter fetchOk

/-- The pure content of `matchIdeas` (`src/pipeline/process-fr.ts`):
misalignment short-circuit, empty-shortlist short-circuits, shortlist
validation against the full Idea universe, best-effort content fetch,
confidence filter, id validation against the surviving shortlist, and
construction of the `ValidatedMatch` list. -/
def matchIdeasModel (belongsToProduct : Bool) (shortlist : List IdeaCandidate)
    (ideaUniverseIds : List String) (fetchOk : String → Bool)
    (matched : List IdeaMatch) (threshold : ℚ) : List ValidatedMatch :=
  if !belongsToProduct then []
  else if shortlist.isEmpty then []
  else
    let validShortlistIds := (validateIds (shortlist.map (fun c => c.id)) ideaUniverseIds).1
    if validShortlistIds.isEmpty then []
    else
      let candidateIds := validShortlistIds.filter fetchOk
      if candidateIds.isEmpty then []
      else
        let aboveThreshold := ideasAboveThreshold matched threshold
        let proposedIds := aboveThreshold.map (fun m => m.idea_page_id)
        let valid := (validateIds proposedIds candidateIds).1
        valid.map (fun id =>
          match aboveThreshold.find? (fun m => stripLower m.idea_page_id == stripLower id) with
          | some original => ⟨id, original.confidence, original.reasoning⟩
          | none => ⟨id, 0, ""⟩)

/-! ## Belongs-to-product checks -/

/-- The per-FR belongs check from `processFR` (`src/pipeline/process-fr.ts`
lines 86-91): plain case-insensitive comparison of the verdict against the
product name or the synonyms `home` / `belongs`. -/
def belongsToProductCheck (verdict productName : String) : Bool :=
  let verdictLower := (lowerChars verdict.toList).asString
  let productNameLower := (lowerChars productName.toList).asString
  verdictLower == productNameLower || verdictLower == "home" || verdictLower == "belongs"

/-- The `normalize` helper inside `determineAuditStatus`
(`src/pipeline/finalize.ts`): `s.toLowerCase().replace(/[-\s]/g, '_')`. -/
def underscoreNorm (s : String) : String :=
  (s.toList.map (fun c =>
    let l := c.toLower
    if l = '-' ∨ l.isWhitespace then '_' else l)).asString

/-- The belongs comparison used by `determineAuditStatus`
(`src/pipeline/finalize.ts` lines 145-152): the same name/synonym test but
on `underscoreNorm`-normalized strings. -/
def finalizeBelongsCheck (verdict productName : String) : Bool :=
  let verdictNormalized := underscoreNorm verdict
  let productNameNormalized := underscoreNorm productName
  verdictNormalized == productNameNormalized ||
    verdictNormalized == "home" || verdictNormalized == "belongs"

/-! ## Finalize status aggregation (`src/pipeline/finalize.ts`) -/

/-- The audit statuses produced by `determineAuditStatus`. -/
inductive AuditStatus where
  | Complete
  | Error
  | NeedsAttention
deriving DecidableEq, Repr

/-- The per-FR predicate of the `frsNeedingAttention` filter in
`determineAuditStatus` (`src/pipeline/finalize.ts` lines 143-163). -/
def frNeedsAttention (productName : String) (r : FRProcessingResult) : Bool :=
  let verdictMismatch := !finalizeBelongsCheck r.alignment.verdict productName
  let uncertainVerdict := underscoreNorm r.alignment.verdict == "uncertain"
  let productIssue := verdictMismatch || uncertainVerdict
  let noPulseMatches := r.belongsToProduct && r.pulseMatches.isEmpty
  let noIdeaMatches := r.belongsToProduct && r.ideaMatches.isEmpty
  productIssue || noPulseMatches || noIdeaMatches

/-- Function `determineAuditStatus` from `src/pipeline/finalize.ts`: technical
errors dominate, then business-attention conditions, else `Complete`. -/
def determineAuditStatus (results : List FRProcessingResult)
    (productName : String) : AuditStatus × Option String :=
  let technicalErrors := results.filter (fun r => !r.errors.isEmpty)
  if !technicalErrors.isEmpty then
    let errorDetails := String.intercalate "\n" (technicalErrors.map (fun r =>
      "FR \"" ++ r.frTitle ++ "\": " ++ String.intercalate ", " r.errors))
    (AuditStatus.Error,
      some ("Technical errors occurred during processing:\n\n" ++ errorDetails ++
        "\n\nPlease review logs and retry if needed."))
  else
    let frsNeedingAttention := results.filter (frNeedsAttention productName)
    if !frsNeedingAttention.isEmpty then
      (AuditStatus.NeedsAttention,
        some (toString frsNeedingAttention.length ++
          " FRs need manual review. See audit page for details.\n\nAfter addressing issues, manually change this doc status to \"Complete\"."))
    else (AuditStatus.Complete, none)

/-! ## Structured completion client (`src/llm/client.ts`) -/

/-- One zod validation issue, with the dot-joined field path and message as
used in the retry feedback. -/
structure ValidationIssue where
  path : String
  message : String
deriving DecidableEq, Repr

/-- The tagged `LLMError` outcomes of `LLMClient.complete`, each carrying
the schema label it names. -/
inductive LLMErr where
  | llmCallFailed (schemaName : String)
  | parseFailed (schemaName : String)
  | validationFailedAfterRetry (schemaName : String) (errors : List ValidationIssue)
  | retryFailed (schemaName : String)
deriving DecidableEq, Repr

/-- The schema label named by a tagged completion error. -/
def LLMErr.schemaName : LLMErr → String
  | .llmCallFailed n => n
  | .parseFailed n => n
  | .validationFailedAfterRetry n _ => n
  | .retryFailed n => n

/-- The correction text appended to the user message on the single
schema-validation retry (`src/llm/client.ts` line 80). -/
def retrySuffix (issues : List ValidationIssue) : String :=
  "\n\nIMPORTANT: Your previous response had validation errors:\n" ++
    String.intercalate "\n" (issues.map (fun i => "- " ++ i.path ++ ": " ++ i.message)) ++
    "\n\nPlease fix these issues and return valid JSON."

/-- Result of `LLMClient.complete` together with the user messages actually
sent to the completion provider, in order. -/
structure CompleteTrace (T : Type) where
  result : Except LLMErr T
  sentMessages : List String
deriving Repr

/-- Method `LLMClient.complete` from `src/llm/client.ts`, abstracted over its
effectful collaborators: `provider` maps each sent user message to the raw
response (or a transport failure), `parse` is `parseJSON` (JSON extraction,
possibly failing), and `validate` is `responseSchema.safeParse`. The system
prompt is unchanged between attempts and therefore not modelled. -/
def completeModel {J T : Type} (schemaName userMessage : String)
    (provider : String → Except String String)
    (parse : String → Option J)
    (validate : J → Except (List ValidationIssue) T) : CompleteTrace T :=
  match provider userMessage with
  | .error _ => ⟨.error (.llmCallFailed schemaName), [userMessage]⟩
  | .ok rawText =>
    match parse rawText with
    | none => ⟨.error (.parseFailed schemaName), [userMessage]⟩
    | some parsed =>
      match validate parsed with
      | .ok t => ⟨.ok t, [userMessage]⟩
      | .error issues =>
        let retryMessage := userMessage ++ retrySuffix issues
        match provider retryMessage with
        | .error _ => ⟨.error (.retryFailed schemaName), [userMessage, retryMessage]⟩
        | .ok retryText =>
          match parse retryText with
          | none => ⟨.error (.parseFailed schemaName), [userMessage, retryMessage]⟩
          | some retryParsed =>
            match validate retryParsed with
            | .ok t => ⟨.ok t, [userMessage, retryMessage]⟩
            | .error retryIssues =>
              ⟨.error (.validationFailedAfterRetry schemaName retryIssues),
                [userMessage, retryMessage]⟩

/-! ## Per-FR processing (`src/pipeline/process-fr.ts`) -/

/-- Outcomes of the effectful collaborators consulted by `processFR`, each
of which may throw: the audit-page writes, the alignment completion call,
and the Pulse / Idea sub-pipelines (whose successful values are the match
lists they return). -/
structure FRStageOutcomes where
  headerWrite : Except String Unit
  alignment : Except String AlignmentResult
  alignmentAuditWrite : Except String Unit
  misalignmentWrite : Except String Unit
  pulse : Except String (List ValidatedMatch)
  ideas : Except String (List ValidatedMatch)

/-- The error string recorded by the `catch` block of `processFR`. -/
def frErrMsg (fr : FeatureRequest) (e : String) : String :=
  "Error processing FR " ++ fr.id ++ ": " ++ e

/-- Initial `result` object of `processFR`: default `uncertain` alignment,
not belonging, no matches, no errors. -/
def initialFRResult (fr : FeatureRequest) : FRProcessingResult :=
  { frId := fr.id, frTitle := fr.title, frUrl := fr.url,
    alignment := ⟨"uncertain", 0, "", ""⟩, belongsToProduct := false,
    pulseMatches := [], ideaMatches := [], errors := [] }

/-- Steps 3-4 of `processFR`: run the Idea sub-pipeline when enabled,
catching a thrown error into the result. -/
def processIdeaStage (fr : FeatureRequest) (ideaStageOn : Bool)
    (ideasOutcome : Except String (List ValidatedMatch))
    (r : FRProcessingResult) : FRProcessingResult :=
  if ideaStageOn then
    match ideasOutcome with
    | .error e => { r with errors := [frErrMsg fr e] }
    | .ok im => { r with ideaMatches := im }
  else r

/-- Step 2 then steps 3-4 of `processFR`: run the Pulse sub-pipeline when
enabled, then the Idea stage; a throw in either is caught into the result
and ends processing for this FR. -/
def processPulseStage (fr : FeatureRequest) (pulseStageOn ideaStageOn : Bool)
    (pulseOutcome : Except String (List ValidatedMatch))
    (ideasOutcome : Except String (List ValidatedMatch))
    (r : FRProcessingResult) : FRProcessingResult :=
  if pulseStageOn then
    match pulseOutcome with
    | .error e => { r with errors := [frErrMsg fr e] }
    | .ok pm => processIdeaStage fr ideaStageOn ideasOutcome { r with pulseMatches := pm }
  else processIdeaStage fr ideaStageOn ideasOutcome r

/-- Function `processFR` from `src/pipeline/process-fr.ts`, abstracted over its
collaborators via `FRStageOutcomes`. `pulseStageOn` stands for
`config.matching.pulse.enabled && prepResult.pulseData.length > 0`, and
`ideaStageOn` for the analogous Idea condition. The single `try` block
covers every stage; the `catch` pushes one error message and the result
built so far is returned. -/
def processFRModel (fr : FeatureRequest) (productName : String)
    (pulseStageOn ideaStageOn : Bool) (st : FRStageOutcomes) :
    FRProcessingResult :=
  let base := initialFRResult fr
  match st.headerWrite with
  | .error e => { base with errors := [frErrMsg fr e] }
  | .ok _ =>
    match st.alignment with
    | .error e => { base with errors := [frErrMsg fr e] }
    | .ok al =>
      let r1 := { base with alignment := al }
      match st.alignmentAuditWrite with
      | .error e => { r1 with errors := [frErrMsg fr e] }
      | .ok _ =>
        let belongs := belongsToProductCheck al.verdict productName
        let r2 := { r1 with belongsToProduct := belongs }
        if belongs then
          processPulseStage fr pulseStageOn ideaStageOn st.pulse st.ideas r2
        else
          match st.misalignmentWrite with
          | .error e => { r2 with errors := [frErrMsg fr e] }
          | .ok _ => processPulseStage fr pulseStageOn ideaStageOn st.pulse st.ideas r2

/-! ## Orchestrator per-FR loop (`runTriage`) -/

/-- The fallback result pushed by the `catch` block of the per-FR loop in
`runTriage`: verdict `error`, the thrown error recorded, no matches. -/
def errorResultFor (fr : FeatureRequest) (e : String) : FRProcessingResult :=
  { frId := fr.id, frTitle := fr.title, frUrl := "",
    alignment := ⟨"error", 0, "", e⟩, belongsToProduct := false,
    pulseMatches := [], ideaMatches := [], errors := [e] }

/-- The per-FR loop of `runTriage`: each FR is processed in order; a throw
from `processFR` is caught and replaced by `errorResultFor`, and the loop
continues with the remaining FRs. -/
def runTriageResults (frs : List FeatureRequest)
    (process : FeatureRequest → Except String FRProcessingResult) :
    List FRProcessingResult :=
  frs.map (fun fr =>
    match process fr with
    | .ok r => r
    | .error e => errorResultFor fr e)

/-! ## Lemmas about id validation -/

theorem validateIdsGo_valid_subset (validSet : List String) (ps : List String) :
    ∀ (seen : List String) (v : String),
      v ∈ (validateIdsGo validSet seen ps).1 → v ∈ validSet := by
  induction ps with
  | nil => intro seen v h; simp [validateIdsGo] at h
  | cons raw rest ih =>
    intro seen v h
    unfold validateIdsGo at h
    cases hn : normalizeNotionId raw with
    | none =>
      rw [hn] at h
      exact ih seen v h
    | some norm =>
      rw [hn] at h
      by_cases hs : norm ∈ seen
      · simp only [if_pos hs] at h
        exact ih seen v h
      · simp only [if_neg hs] at h
        by_cases hv : norm ∈ validSet
        · simp only [if_pos hv] at h
          rcases List.mem_cons.mp h with h | h
          · exact h ▸ hv
          · exact ih (norm :: seen) v h
        · simp only [if_neg hv] at h
          exact ih (norm :: seen) v h

theorem validateIds_valid_from_known (proposed known : List String) (v : String)
    (h : v ∈ (validateIds proposed known).1) :
    ∃ k ∈ known, normalizeNotionId k = some v := by
  have hmem : v ∈ known.filterMap normalizeNotionId :=
    validateIdsGo_valid_subset _ _ _ _ h
  exact List.mem_filterMap.mp hmem

theorem matchPulsesModel_ids_from_candidates (belongs : Bool)
    (llmMatches : List PulseMatch) (pulseIds : List String) (threshold : ℚ)
    (m : ValidatedMatch) (hm : m ∈ matchPulsesModel belongs llmMatches pulseIds threshold) :
    ∃ k ∈ pulseIds, normalizeNotionId k = some m.id := by
  unfold matchPulsesModel at hm
  by_cases hb : belongs
  · simp only [hb, Bool.not_true, Bool.false_eq_true, if_false] at hm
    rcases List.mem_map.mp hm with ⟨v, hv, hvm⟩
    have hid : m.id = v := by
      cases hfind : (pulseAboveThreshold llmMatches threshold).find?
          (fun x => stripLower x.pulse_id == stripLower v) <;>
        simp [hfind] at hvm <;> rw [← hvm]
    exact hid ▸ validateIds_valid_from_known _ _ v hv
  · simp only [Bool.not_eq_true] at hb
    simp [hb] at hm

theorem matchIdeasModel_ids_from_shortlist (belongs : Bool)
    (shortlist : List IdeaCandidate) (ideaUniverseIds : List String)
    (fetchOk : String → Bool) (matched : List IdeaMatch) (threshold : ℚ)
    (m : ValidatedMatch)
    (hm : m ∈ matchIdeasModel belongs shortlist ideaUniverseIds fetchOk matched threshold) :
    ∃ k ∈ ideaShortlistSurvivors (shortlist.map (fun c => c.id)) ideaUniverseIds fetchOk,
      normalizeNotionId k = some m.id := by
  unfold matchIdeasModel at hm
  by_cases hb : belongs
  · simp only [hb, Bool.not_true, Bool.false_eq_true, if_false] at hm
    by_cases hsl : shortlist.isEmpty <;> simp only [hsl, if_true, if_false] at hm
    · simp at hm
    · by_cases hvs :
        ((validateIds (shortlist.map (fun c => c.id)) ideaUniverseIds).1).isEmpty <;>
        simp only [hvs, if_true, if_false] at hm
      · simp at hm
      · by_cases hcs :
          (((validateIds (shortlist.map (fun c => c.id)) ideaUniverseIds).1).filter
            fetchOk).isEmpty <;> simp only [hcs, if_true, if_false] at hm
        · simp at hm
        · rcases List.mem_map.mp hm with ⟨v, hv, hvm⟩
          have hid : m.id = v := by
            cases hfind : (ideasAboveThreshold matched threshold).find?
                (fun x => stripLower x.idea_page_id == stripLower v) <;>
              simp [hfind] at hvm <;> rw [← hvm]
          exact hid ▸ validateIds_valid_from_known _ _ v hv
  · simp only [Bool.not_eq_true] at hb
    simp [hb] at hm

/-! ## Claim C1 -/

/-- C1: every id in the `ValidatedMatch` list returned by the Pulse or Idea
matching sub-pipeline is the normalization of a member of the candidate id
set offered to the model for that call — the full Pulse candidate set for
Pulse matching, and the validated, fetch-surviving shortlist (not the full
Idea universe) for Idea matching. No hallucinated id appears in the
returned matches. -/
theorem validated_matches_never_hallucinated :
    (∀ (belongs : Bool) (llmMatches : List PulseMatch) (pulseIds : List String)
        (threshold : ℚ) (m : ValidatedMatch),
        m ∈ matchPulsesModel belongs llmMatches pulseIds threshold →
        ∃ k ∈ pulseIds, normalizeNotionId k = some m.id) ∧
    (∀ (belongs : Bool) (shortlist : List IdeaCandidate)
        (ideaUniverseIds : List String) (fetchOk : String → Bool)
        (matched : List IdeaMatch) (threshold : ℚ) (m : ValidatedMatch),
        m ∈ matchIdeasModel belongs shortlist ideaUniverseIds fetchOk matched threshold →
        ∃ k ∈ ideaShortlistSurvivors (shortlist.map (fun c => c.id)) ideaUniverseIds fetchOk,
          normalizeNotionId k = some m.id) :=
  ⟨matchPulsesModel_ids_from_candidates, matchIdeasModel_ids_from_shortlist⟩

/-- Witness for C1 at a concrete run of the Pulse sub-pipeline. -/
theorem validated_matches_never_hallucinated_witness :
    (⟨"11111111-1111-1111-1111-111111111111", 1, "fits"⟩ : ValidatedMatch) ∈
      matchPulsesModel true [⟨"11111111111111111111111111111111", 1, "fits"⟩]
        ["11111111-1111-1111-1111-111111111111"] 1 ∧
    ∃ k ∈ ["11111111-1111-1111-1111-111111111111"],
      normalizeNotionId k =
        some (⟨"11111111-1111-1111-1111-111111111111", 1, "fits"⟩ : ValidatedMatch).id :=
  ⟨by decide,
    validated_matches_never_hallucinated.1 true
      [⟨"11111111111111111111111111111111", 1, "fits"⟩]
      ["11111111-1111-1111-1111-111111111111"] 1 _ (by decide)⟩

/-! ## Claim C6 -/

/-- C6: in both the Pulse and the Idea confidence filters, a match whose
confidence equals the product threshold is retained and a match whose
confidence is strictly below the threshold is dropped. -/
theorem confidence_filter_boundary :
    (∀ (ms : List PulseMatch) (threshold : ℚ) (m : PulseMatch), m ∈ ms →
      (m.confidence = threshold → m ∈ pulseAboveThreshold ms threshold) ∧
      (m.confidence < threshold → m ∉ pulseAboveThreshold ms threshold)) ∧
    (∀ (ms : List IdeaMatch) (threshold : ℚ) (m : IdeaMatch), m ∈ ms →
      (m.confidence = threshold → m ∈ ideasAboveThreshold ms threshold) ∧
      (m.confidence < threshold → m ∉ ideasAboveThreshold ms threshold)) := by
  constructor
  · intro ms threshold m hm
    constructor
    · intro he
      exact List.mem_filter.mpr ⟨hm, by simp [he]⟩
    · intro hlt hin
      have := (List.mem_filter.mp hin).2
      simp only [decide_eq_true_eq] at this
      exact absurd hlt (not_lt.mpr this)
  · intro ms threshold m hm
    constructor
    · intro he
      exact List.mem_filter.mpr ⟨hm, by simp [he]⟩
    · intro hlt hin
      have := (List.mem_filter.mp hin).2
      simp only [decide_eq_true_eq] at this
      exact absurd hlt (not_lt.mpr this)

/-- Witness for C6: a Pulse match with confidence exactly at the threshold
is retained. -/
theorem confidence_filter_boundary_witness :
    (⟨"p", 1, "r"⟩ : PulseMatch) ∈ [(⟨"p", 1, "r"⟩ : PulseMatch)] ∧
    (⟨"p", 1, "r"⟩ : PulseMatch).confidence = 1 ∧
    (⟨"p", 1, "r"⟩ : PulseMatch) ∈
      pulseAboveThreshold [(⟨"p", 1, "r"⟩ : PulseMatch)] 1 :=
  ⟨by simp, rfl,
    (confidence_filter_boundary.1 [⟨"p", 1, "r"⟩] 1 _ (by simp)).1 rfl⟩

/-! ## Lemmas about first-occurrence deduplication -/

theorem dedupFirstAux_not_mem_seen (xs : List String) :
    ∀ (seen : List String) (x : String), x ∈ dedupFirstAux seen xs → x ∉ seen := by
  induction xs with
  | nil => intro seen x h; simp [dedupFirstAux] at h
  | cons y ys ih =>
    intro seen x h
    unfold dedupFirstAux at h
    by_cases hy : y ∈ seen
    · simp only [if_pos hy] at h
      exact ih seen x h
    · simp only [if_neg hy] at h
      rcases List.mem_cons.mp h with h | h
      · exact h ▸ hy
      · intro hx
        exact ih (y :: seen) x h (List.mem_cons_of_mem y hx)

theorem dedupFirstAux_nodup (xs : List String) :
    ∀ seen : List String, (dedupFirstAux seen xs).Nodup := by
  induction xs with
  | nil => intro seen; simp [dedupFirstAux]
  | cons y ys ih =>
    intro seen
    unfold dedupFirstAux
    by_cases hy : y ∈ seen
    · simp only [if_pos hy]
      exact ih seen
    · simp only [if_neg hy]
      refine List.nodup_cons.mpr ⟨?_, ih (y :: seen)⟩
      intro hmem
      exact dedupFirstAux_not_mem_seen ys (y :: seen) y hmem (List.mem_cons_self y seen)

theorem validateIdsGo_valid_eq (validSet : List String) (ps : List String) :
    ∀ seen : List String,
      (validateIdsGo validSet seen ps).1 =
        (dedupFirstAux seen (ps.filterMap normalizeNotionId)).filter
          (fun n => decide (n ∈ validSet)) := by
  induction ps with
  | nil => intro seen; simp [validateIdsGo, dedupFirstAux]
  | cons raw rest ih =>
    intro seen
    unfold validateIdsGo
    cases hn : normalizeNotionId raw with
    | none => simp only [List.filterMap_cons, hn]; exact ih seen
    | some norm =>
      simp only [List.filterMap_cons, hn]
      unfold dedupFirstAux
      by_cases hs : norm ∈ seen
      · simp only [if_pos hs]
        exact ih seen
      · simp only [if_neg hs]
        by_cases hv : norm ∈ validSet
        · simp only [if_pos hv, List.filter_cons, decide_eq_true hv]
          simpa using ih (norm :: seen)
        · simp only [if_neg hv, List.filter_cons]
          have : decide (norm ∈ validSet) = false := decide_eq_false hv
          simp only [this, Bool.false_eq_true, if_false]
          exact ih (norm :: seen)

theorem validateIdsGo_invalid_sound (validSet : List String) (ps : List String) :
    ∀ (seen : List String) (x : String), x ∈ (validateIdsGo validSet seen ps).2 →
      x ∈ ps ∧ (normalizeNotionId x = none ∨
        ∃ n, normalizeNotionId x = some n ∧ n ∉ validSet) := by
  induction ps with
  | nil => intro seen x h; simp [validateIdsGo] at h
  | cons raw rest ih =>
    intro seen x h
    unfold validateIdsGo at h
    cases hn : normalizeNotionId raw with
    | none =>
      rw [hn] at h
      rcases List.mem_cons.mp h with h | h
      · subst h
        exact ⟨List.mem_cons_self _ _, Or.inl hn⟩
      · have := ih seen x h
        exact ⟨List.mem_cons_of_mem _ this.1, this.2⟩
    | some norm =>
      rw [hn] at h
      by_cases hs : norm ∈ seen
      · simp only [if_pos hs] at h
        have := ih seen x h
        exact ⟨List.mem_cons_of_mem _ this.1, this.2⟩
      · simp only [if_neg hs] at h
        by_cases hv : norm ∈ validSet
        · simp only [if_pos hv] at h
          have := ih (norm :: seen) x h
          exact ⟨List.mem_cons_of_mem _ this.1, this.2⟩
        · simp only [if_neg hv] at h
          rcases List.mem_cons.mp h with h | h
          · subst h
            exact ⟨List.mem_cons_self _ _, Or.inr ⟨norm, hn, hv⟩⟩
          · have := ih (norm :: seen) x h
            exact ⟨List.mem_cons_of_mem _ this.1, this.2⟩

theorem validateIdsGo_unnormalizable_in_invalid (validSet : List String)
    (ps : List String) :
    ∀ (seen : List String) (raw : String), raw ∈ ps → normalizeNotionId raw = none →
      raw ∈ (validateIdsGo validSet seen ps).2 := by
  induction ps with
  | nil => intro seen raw h; simp at h
  | cons y ys ih =>
    intro seen raw hmem hnone
    unfold validateIdsGo
    rcases List.mem_cons.mp hmem with h | h
    · subst h
      rw [hnone]
      exact List.mem_cons_self _ _
    · cases hn : normalizeNotionId y with
      | none => exact List.mem_cons_of_mem _ (ih seen raw h hnone)
      | some norm =>
        by_cases hs : norm ∈ seen
        · simp only [if_pos hs]
          exact ih seen raw h hnone
        · simp only [if_neg hs]
          by_cases hv : norm ∈ validSet
          · simp only [if_pos hv]
            exact ih (norm :: seen) raw h hnone
          · simp only [if_neg hv]
            exact List.mem_cons_of_mem _ (ih (norm :: seen) raw h hnone)

theorem validateIdsGo_invalid_count (validSet : List String) (ps : List String) :
    ∀ (seen : List String) (raw : String),
      (normalizeNotionId raw = none →
        ((validateIdsGo validSet seen ps).2).count raw = ps.count raw) ∧
      (∀ n, normalizeNotionId raw = some n →
        ((validateIdsGo validSet seen ps).2).count raw =
          (if n ∉ validSet ∧ n ∉ seen ∧
              ps.find? (fun q => normalizeNotionId q == some n) = some raw
           then 1 else 0)) := by
  induction ps with
  | nil =>
    intro seen raw
    constructor
    · intro _
      simp [validateIdsGo]
    · intro n _
      simp [validateIdsGo]
  | cons q rest ih =>
    intro seen raw
    constructor
    · -- raw does not normalize: counted verbatim at every occurrence
      intro hraw
      cases hq : normalizeNotionId q with
      | none =>
        simp only [validateIdsGo, hq]
        rw [List.count_cons, List.count_cons, (ih seen raw).1 hraw]
      | some m =>
        have hqr : ¬ q = raw := by
          intro h
          rw [h, hraw] at hq
          cases hq
        have hcnt : (q :: rest).count raw = rest.count raw := by
          rw [List.count_cons]
          simp [hqr]
        by_cases hm1 : m ∈ seen
        · simp only [validateIdsGo, hq, if_pos hm1]
          rw [(ih seen raw).1 hraw, hcnt]
        · by_cases hm2 : m ∈ validSet
          · simp only [validateIdsGo, hq, if_neg hm1, if_pos hm2]
            rw [(ih (m :: seen) raw).1 hraw, hcnt]
          · simp only [validateIdsGo, hq, if_neg hm1, if_neg hm2]
            rw [List.count_cons, (ih (m :: seen) raw).1 hraw, hcnt]
            simp [hqr]
    · -- raw normalizes to n: counted once, at the first occurrence of n,
      -- when n is unknown and unseen
      intro n hraw
      cases hq : normalizeNotionId q with
      | none =>
        have hqr : ¬ q = raw := by
          intro h
          rw [h, hraw] at hq
          cases hq
        have hfind : (q :: rest).find? (fun x => normalizeNotionId x == some n) =
            rest.find? (fun x => normalizeNotionId x == some n) :=
          List.find?_cons_of_neg rest (by simp [hq])
        simp only [validateIdsGo, hq]
        rw [List.count_cons, (ih seen raw).2 n hraw, hfind]
        simp [hqr]
      | some m =>
        by_cases hmn : m = n
        · subst hmn
          have hfind : (q :: rest).find? (fun x => normalizeNotionId x == some m) =
              some q :=
            List.find?_cons_of_pos rest (by simp [hq])
          by_cases hm1 : m ∈ seen
          · simp only [validateIdsGo, hq, if_pos hm1]
            rw [(ih seen raw).2 m hraw, hfind]
            rw [if_neg (fun h => h.2.1 hm1), if_neg (fun h => h.2.1 hm1)]
          · by_cases hm2 : m ∈ validSet
            · simp only [validateIdsGo, hq, if_neg hm1, if_pos hm2]
              rw [(ih (m :: seen) raw).2 m hraw, hfind]
              rw [if_neg (fun h => h.1 hm2), if_neg (fun h => h.1 hm2)]
            · simp only [validateIdsGo, hq, if_neg hm1, if_neg hm2]
              have h0 : List.count raw (validateIdsGo validSet (m :: seen) rest).2 = 0 := by
                rw [(ih (m :: seen) raw).2 m hraw]
                exact if_neg (fun h => h.2.1 (List.mem_cons_self m seen))
              by_cases hqr : q = raw
              · subst hqr
                rw [List.count_cons, h0, hfind]
                simp [hm1, hm2]
              · rw [List.count_cons, h0, hfind]
                simp [hqr]
        · -- q normalizes to a different id m ≠ n: it is never the first
          -- occurrence of n and leaves the count for raw unchanged
          have hfind : (q :: rest).find? (fun x => normalizeNotionId x == some n) =
              rest.find? (fun x => normalizeNotionId x == some n) :=
            List.find?_cons_of_neg rest (by simp [hq, hmn])
          have hnm : ¬ n = m := fun h => hmn h.symm
          have hmem : (n ∈ m :: seen) ↔ (n ∈ seen) := by simp [List.mem_cons, hnm]
          by_cases hm1 : m ∈ seen
          · simp only [validateIdsGo, hq, if_pos hm1]
            rw [(ih seen raw).2 n hraw, hfind]
          · by_cases hm2 : m ∈ validSet
            · simp only [validateIdsGo, hq, if_neg hm1, if_pos hm2]
              rw [(ih (m :: seen) raw).2 n hraw, hfind]
              simp only [hmem]
            · have hqr : ¬ q = raw := by
                intro h
                rw [h, hraw] at hq
                exact hnm (Option.some.inj hq)
              simp only [validateIdsGo, hq, if_neg hm1, if_neg hm2]
              rw [List.count_cons, (ih (m :: seen) raw).2 n hraw, hfind]
              simp only [hmem]
              simp [hqr]

theorem mergeGo_eq_dedupFirstAux (l : List String) :
    ∀ seen : List String,
      mergeGo seen l = dedupFirstAux seen (l.filterMap normalizeNotionId) := by
  induction l with
  | nil => intro seen; simp [mergeGo, dedupFirstAux]
  | cons raw rest ih =>
    intro seen
    unfold mergeGo
    cases hn : normalizeNotionId raw with
    | none => simp only [List.filterMap_cons, hn]; exact ih seen
    | some norm =>
      simp only [List.filterMap_cons, hn]
      unfold dedupFirstAux
      by_cases hs : norm ∈ seen
      · simp only [if_pos hs]
        exact ih seen
      · simp only [if_neg hs]
        rw [ih (norm :: seen)]

/-! ## Claim C9 -/

/-- C9: `mergeRelationIds` returns the normalized forms of
`existingIds ++ newIds` (entries failing normalization dropped),
deduplicated keeping the first occurrence — which preserves the
existing-before-new ordering — and its result has no duplicate ids. -/
theorem mergeRelationIds_spec (existingIds newIds : List String) :
    mergeRelationIds existingIds newIds =
      dedupFirst ((existingIds ++ newIds).filterMap normalizeNotionId) ∧
    (mergeRelationIds existingIds newIds).Nodup := by
  constructor
  · exact mergeGo_eq_dedupFirstAux _ []
  · rw [mergeRelationIds, mergeGo_eq_dedupFirstAux _ []]
    exact dedupFirstAux_nodup _ []

/-! ## Claim C4 -/

/-- C4 counterexample: a later duplicate of a normalizable id that is NOT
in the known set is silently dropped, not appended to `invalid` a second
time — the claim requires every proposed entry whose normalized form is
outside the known set to land in `invalid`, so `invalid` would have to
list the id twice. -/
theorem validateIds_duplicate_unknown_dropped :
    validateIds ["11111111111111111111111111111111",
                 "11111111111111111111111111111111"] [] =
      ([], ["11111111111111111111111111111111"]) ∧
    ¬ (List.count "11111111111111111111111111111111"
        (validateIds ["11111111111111111111111111111111",
                      "11111111111111111111111111111111"] []).2 = 2) := by
  constructor
  · decide
  · decide

/-- C4 as amended: `valid` is the list of first occurrences of the
distinct normalized forms of `proposedIds`, in first-occurrence order,
restricted to the normalized known set, and contains no duplicates; every
`invalid` entry is an original proposed string whose normalization failed
or whose normalized form is outside the known set; every entry whose
normalization fails lands in `invalid`; and the multiplicity of every
string in `invalid` is exact — an unnormalizable entry appears once per
occurrence in `proposedIds`, while a normalizable entry appears exactly
once when its normalized form is unknown and it is the first proposed
entry carrying that normalized form, and zero times otherwise. Hence a
normalizable-but-unknown id lands in `invalid` on the first occurrence of
its normalized form, and later duplicates of an already-seen normalized
id — whether it was accepted into `valid` or rejected as unknown — appear
in neither list. -/
theorem validateIds_spec (proposedIds knownIds : List String) :
    ((validateIds proposedIds knownIds).1 =
      (dedupFirst (proposedIds.filterMap normalizeNotionId)).filter
        (fun n => decide (n ∈ knownIds.filterMap normalizeNotionId))) ∧
    (validateIds proposedIds knownIds).1.Nodup ∧
    (∀ x ∈ (validateIds proposedIds knownIds).2,
      x ∈ proposedIds ∧ (normalizeNotionId x = none ∨
        ∃ n, normalizeNotionId x = some n ∧
          n ∉ knownIds.filterMap normalizeNotionId)) ∧
    (∀ raw ∈ proposedIds, normalizeNotionId raw = none →
      raw ∈ (validateIds proposedIds knownIds).2) ∧
    (∀ raw, normalizeNotionId raw = none →
      ((validateIds proposedIds knownIds).2).count raw = proposedIds.count raw) ∧
    (∀ raw n, normalizeNotionId raw = some n →
      ((validateIds proposedIds knownIds).2).count raw =
        (if n ∉ knownIds.filterMap normalizeNotionId ∧
            proposedIds.find? (fun q => normalizeNotionId q == some n) = some raw
         then 1 else 0)) := by
  refine ⟨validateIdsGo_valid_eq _ _ [], ?_,
    validateIdsGo_invalid_sound _ _ [], validateIdsGo_unnormalizable_in_invalid _ _ [],
    ?_, ?_⟩
  · rw [validateIds, validateIdsGo_valid_eq _ _ []]
    exact (dedupFirstAux_nodup _ []).filter _
  · intro raw hraw
    exact (validateIdsGo_invalid_count _ _ [] raw).1 hraw
  · intro raw n hraw
    rw [validateIds, (validateIdsGo_invalid_count _ _ [] raw).2 n hraw]
    simp

/-- Witness for C4 (amended): concrete run with one known id proposed
twice, one unknown id, and one malformed id; the count conjunct is
exercised on a duplicated unknown id, which is reported exactly once. -/
theorem validateIds_spec_witness :
    (validateIds ["11111111-1111-1111-1111-111111111111",
                  "11111111111111111111111111111111",
                  "22222222222222222222222222222222", "oops"]
        ["11111111-1111-1111-1111-111111111111"]).2 =
      ["22222222222222222222222222222222", "oops"] ∧
    "oops" ∈ (validateIds ["11111111-1111-1111-1111-111111111111",
                  "11111111111111111111111111111111",
                  "22222222222222222222222222222222", "oops"]
        ["11111111-1111-1111-1111-111111111111"]).2 ∧
    ((validateIds ["22222222222222222222222222222222",
                   "22222222222222222222222222222222"] []).2).count
        "22222222222222222222222222222222" =
      (if "22222222-2222-2222-2222-222222222222" ∉
            ([] : List String).filterMap normalizeNotionId ∧
          ["22222222222222222222222222222222",
           "22222222222222222222222222222222"].find?
              (fun q => normalizeNotionId q ==
                some "22222222-2222-2222-2222-222222222222") =
            some "22222222222222222222222222222222"
       then 1 else 0) :=
  ⟨by decide,
    (validateIds_spec ["11111111-1111-1111-1111-111111111111",
        "11111111111111111111111111111111",
        "22222222222222222222222222222222", "oops"]
      ["11111111-1111-1111-1111-111111111111"]).2.2.2.1 "oops" (by decide) (by decide),
    (validateIds_spec ["22222222222222222222222222222222",
        "22222222222222222222222222222222"] []).2.2.2.2.2
      "22222222222222222222222222222222" "22222222-2222-2222-2222-222222222222"
      (by decide)⟩

/-! ## Claim C5 -/

/-- C5 counterexample: `"0-..."` (32 hex digits with a single hyphen after
the first digit) is neither a 32-character hex string nor a hyphenated
UUID after trimming, yet `normalizeNotionId` accepts it, because the code
strips every hyphen before the 32-hex test. The claim requires `null`
here. -/
theorem normalizeNotionId_shape_counterexample :
    hex32L (trimChars ("0-0000000000000000000000000000000").toList) = false ∧
    uuidShapeL (trimChars ("0-0000000000000000000000000000000").toList) = false ∧
    normalizeNotionId "0-0000000000000000000000000000000" =
      some "00000000-0000-0000-0000-000000000000" := by
  refine ⟨by decide, by decide, by decide⟩

/-- C5 as amended: `normalizeNotionId` returns the lowercase hyphenated
canonical form exactly when the trimmed input, with every hyphen removed,
is a 32-character hex string — this includes the two documented shapes
(32-hex and hyphenated UUID, any letter case) but also arbitrary hyphen
placements — and returns `null` for every other string (including the
empty string). -/
theorem normalizeNotionId_spec (raw : String) :
    normalizeNotionId raw =
      (if hex32L ((trimChars raw.toList).filter (fun c => c ≠ '-')) then
        some (hyphenate (lowerChars
          ((trimChars raw.toList).filter (fun c => c ≠ '-')))).asString
      else none) := by
  by_cases hu : uuidShapeL (trimChars raw.toList) = true
  · obtain ⟨a, b, c, d, e, hcs, hal, hbl, hcl, hdl, hel, hah, hbh, hch, hdh, heh⟩ :=
      uuidShape_decomp hu
    have hfilter : (trimChars raw.toList).filter (fun x => x ≠ '-') =
        a ++ (b ++ (c ++ (d ++ e))) := by
      rw [hcs]
      simp only [List.filter_append, List.filter_cons, decide_not, decide_eq_true_eq]
      simp only [decide_True, decide_False, Bool.not_true, Bool.not_false,
        Bool.false_eq_true, if_false]
      rw [hexList_filter_bang hah, hexList_filter_bang hbh, hexList_filter_bang hch,
        hexList_filter_bang hdh, hexList_filter_bang heh]
    have h32 : hex32L ((trimChars raw.toList).filter (fun x => x ≠ '-')) = true := by
      rw [hfilter, hex32L_eq_true_iff]
      constructor
      · simp [hal, hbl, hcl, hdl, hel]
      · intro x hx
        simp only [List.mem_append] at hx
        rcases hx with hx | hx | hx | hx | hx
        exacts [hah x hx, hbh x hx, hch x hx, hdh x hx, heh x hx]
    rw [h32, if_pos rfl]
    show normalizeNotionId raw = _
    unfold normalizeNotionId
    rw [if_pos hu]
    congr 1
    apply congrArg List.asString
    rw [hfilter, hcs]
    have hlla : (lowerChars a).length = 8 := by simp [lowerChars, hal]
    have hllb : (lowerChars b).length = 4 := by simp [lowerChars, hbl]
    have hllc : (lowerChars c).length = 4 := by simp [lowerChars, hcl]
    have hlld : (lowerChars d).length = 4 := by simp [lowerChars, hdl]
    have hmap : lowerChars (a ++ (b ++ (c ++ (d ++ e)))) =
        lowerChars a ++ (lowerChars b ++ (lowerChars c ++ (lowerChars d ++ lowerChars e))) := by
      simp [lowerChars]
    rw [hmap, hyphenate_parts _ _ _ _ _ hlla hllb hllc hlld]
    simp [lowerChars, toLower_hyphen]
  · unfold normalizeNotionId
    rw [if_neg hu]

/-! ## Claims C2 and C3 -/

/-- Spec-side statement (§4.6 of the spec) of the per-FR Needs Attention
trigger: a product-misalignment verdict by the finalize belongs comparison,
an `uncertain` verdict, or zero surviving Pulse / Idea matches while
belonging to the product. -/
def needsAttentionSpec (productName : String) (r : FRProcessingResult) : Prop :=
  finalizeBelongsCheck r.alignment.verdict productName = false ∨
  underscoreNorm r.alignment.verdict = "uncertain" ∨
  (r.belongsToProduct = true ∧ r.pulseMatches = []) ∨
  (r.belongsToProduct = true ∧ r.ideaMatches = [])

theorem frNeedsAttention_iff (productName : String) (r : FRProcessingResult) :
    frNeedsAttention productName r = true ↔ needsAttentionSpec productName r := by
  simp only [frNeedsAttention, needsAttentionSpec, Bool.or_eq_true, Bool.and_eq_true,
    Bool.not_eq_true', List.isEmpty_iff, beq_iff_eq]
  tauto

theorem filter_isEmpty_iff_all_not {α : Type} (l : List α) (p : α → Bool) :
    (l.filter p).isEmpty = true ↔ ∀ a ∈ l, p a = false := by
  rw [List.isEmpty_iff, List.filter_eq_nil_iff]
  constructor
  · intro h a ha
    simpa using h a ha
  · intro h a ha
    simp [h a ha]

/-- C2: the run status computed by `determineAuditStatus` follows strict
priority — `Error` exactly when some FR has a non-empty error list;
otherwise `Needs Attention` exactly when some FR triggers a business
attention condition (misalignment or uncertain verdict, or zero matches
while belonging); otherwise `Complete`. The trigger conditions mention only
the surviving match lists, so a low-confidence match filtered out earlier
is, by itself, never a trigger. -/
theorem audit_status_priority (results : List FRProcessingResult) (productName : String) :
    ((determineAuditStatus results productName).1 = AuditStatus.Error ↔
      ∃ r ∈ results, r.errors ≠ []) ∧
    ((determineAuditStatus results productName).1 = AuditStatus.NeedsAttention ↔
      ((∀ r ∈ results, r.errors = []) ∧ ∃ r ∈ results, needsAttentionSpec productName r)) ∧
    ((determineAuditStatus results productName).1 = AuditStatus.Complete ↔
      ((∀ r ∈ results, r.errors = []) ∧ ∀ r ∈ results, ¬ needsAttentionSpec productName r)) := by
  have herr : ((results.filter (fun r => !r.errors.isEmpty)).isEmpty = true) ↔
      ∀ r ∈ results, r.errors = [] := by
    rw [filter_isEmpty_iff_all_not]
    constructor
    · intro h r hr
      have := h r hr
      simpa [List.isEmpty_iff] using this
    · intro h r hr
      simp [h r hr]
  have hatt : ((results.filter (frNeedsAttention productName)).isEmpty = true) ↔
      ∀ r ∈ results, ¬ needsAttentionSpec productName r := by
    rw [filter_isEmpty_iff_all_not]
    constructor
    · intro h r hr
      rw [← frNeedsAttention_iff]
      simp [h r hr]
    · intro h r hr
      rw [← Bool.not_eq_true, frNeedsAttention_iff]
      exact h r hr
  by_cases h1 : (results.filter (fun r => !r.errors.isEmpty)).isEmpty = true
  · have hall : ∀ r ∈ results, r.errors = [] := herr.mp h1
    have hnoerr : ¬ ∃ r ∈ results, r.errors ≠ [] := by
      push_neg
      intro r hr
      exact hall r hr
    by_cases h2 : (results.filter (frNeedsAttention productName)).isEmpty = true
    · have hs : (determineAuditStatus results productName).1 = AuditStatus.Complete := by
        simp [determineAuditStatus, h1, h2]
      have hnone : ∀ r ∈ results, ¬ needsAttentionSpec productName r := hatt.mp h2
      rw [hs]
      refine ⟨iff_of_false (by simp) hnoerr, iff_of_false (by simp) ?_,
        iff_of_true rfl ⟨hall, hnone⟩⟩
      rintro ⟨_, r, hr, hcond⟩
      exact hnone r hr hcond
    · have hs : (determineAuditStatus results productName).1 = AuditStatus.NeedsAttention := by
        simp [determineAuditStatus, h1, h2]
      have hex : ∃ r ∈ results, needsAttentionSpec productName r := by
        by_contra hno
        push_neg at hno
        exact h2 (hatt.mpr hno)
      rw [hs]
      refine ⟨iff_of_false (by simp) hnoerr, iff_of_true rfl ⟨hall, hex⟩,
        iff_of_false (by simp) ?_⟩
      rintro ⟨_, hnone⟩
      rcases hex with ⟨r, hr, hcond⟩
      exact hnone r hr hcond
  · have hs : (determineAuditStatus results productName).1 = AuditStatus.Error := by
      simp [determineAuditStatus, h1]
    have hexErr : ∃ r ∈ results, r.errors ≠ [] := by
      by_contra hno
      push_neg at hno
      exact h1 (herr.mpr hno)
    rw [hs]
    refine ⟨iff_of_true rfl hexErr, iff_of_false (by simp) ?_, iff_of_false (by simp) ?_⟩
    · rintro ⟨hall, _⟩
      rcases hexErr with ⟨r, hr, hne⟩
      exact hne (hall r hr)
    · rintro ⟨hall, _⟩
      rcases hexErr with ⟨r, hr, hne⟩
      exact hne (hall r hr)

/-- Witness for C2: a run whose single FR has a recorded error is `Error`. -/
theorem audit_status_priority_witness :
    (determineAuditStatus
      [{ initialFRResult ⟨"f", "t", "u", "c", [], []⟩ with errors := ["boom"] }]
      "Acme").1 = AuditStatus.Error :=
  (audit_status_priority
      [{ initialFRResult ⟨"f", "t", "u", "c", [], []⟩ with errors := ["boom"] }]
      "Acme").1.mpr
    ⟨_, List.mem_singleton.mpr rfl, by simp [initialFRResult]⟩

/-- C3: the two belongs-to-product comparisons are NOT equivalent. The
per-FR check in `processFR` lowercases only, while `determineAuditStatus`
additionally rewrites hyphens and whitespace to underscores (its comment
claims it "uses same normalize as process-fr.ts", which is false). At
verdict `"Acme-App"` against product name `"Acme App"`, `processFR`
computes not-belonging while the status aggregator treats the verdict as
matching the product. -/
theorem belongs_checks_disagree :
    belongsToProductCheck "Acme-App" "Acme App" = false ∧
    finalizeBelongsCheck "Acme-App" "Acme App" = true := by
  exact ⟨by decide, by decide⟩

/-! ## Claim C7 -/

/-- C7: when the first completion response parses as JSON but fails schema
validation, `complete` issues exactly one retry whose user message is the
original message with the concrete validation errors and a correction
instruction appended; exactly two provider calls ever happen (never a
second retry); if the retry validates, its value is returned, and if the
retry fails to parse or fails validation, the call fails with a tagged
error naming the schema label. -/
theorem complete_single_validation_retry {J T : Type}
    (schemaName userMessage : String)
    (provider : String → Except String String)
    (parse : String → Option J)
    (validate : J → Except (List ValidationIssue) T)
    (r1 : String) (j1 : J) (issues : List ValidationIssue)
    (hp : provider userMessage = .ok r1)
    (hj : parse r1 = some j1)
    (hv : validate j1 = .error issues) :
    ((completeModel schemaName userMessage provider parse validate).sentMessages =
      [userMessage, userMessage ++ retrySuffix issues]) ∧
    (∀ e, (completeModel schemaName userMessage provider parse validate).result =
        .error e → e.schemaName = schemaName) ∧
    (∀ r2 j2 t, provider (userMessage ++ retrySuffix issues) = .ok r2 →
      parse r2 = some j2 → validate j2 = .ok t →
      (completeModel schemaName userMessage provider parse validate).result = .ok t) ∧
    (∀ r2, provider (userMessage ++ retrySuffix issues) = .ok r2 → parse r2 = none →
      (completeModel schemaName userMessage provider parse validate).result =
        .error (.parseFailed schemaName)) ∧
    (∀ r2 j2 retryIssues, provider (userMessage ++ retrySuffix issues) = .ok r2 →
      parse r2 = some j2 → validate j2 = .error retryIssues →
      (completeModel schemaName userMessage provider parse validate).result =
        .error (.validationFailedAfterRetry schemaName retryIssues)) := by
  refine ⟨?_, ?_, ?_, ?_, ?_⟩ <;> simp only [completeModel, hp, hj, hv]
  · cases hp2 : provider (userMessage ++ retrySuffix issues) with
    | error e2 => simp [hp2]
    | ok r2 =>
      cases hj2 : parse r2 with
      | none => simp [hp2, hj2]
      | some j2 =>
        cases hv2 : validate j2 with
        | error is2 => simp [hp2, hj2, hv2]
        | ok t2 => simp [hp2, hj2, hv2]
  · intro e he
    cases hp2 : provider (userMessage ++ retrySuffix issues) with
    | error e2 =>
      simp only [hp2] at he
      simp at he
      rw [← he]
      rfl
    | ok r2 =>
      simp only [hp2] at he
      cases hj2 : parse r2 with
      | none =>
        simp only [hj2] at he
        simp at he
        rw [← he]
        rfl
      | some j2 =>
        simp only [hj2] at he
        cases hv2 : validate j2 with
        | error is2 =>
          simp only [hv2] at he
          simp at he
          rw [← he]
          rfl
        | ok t2 =>
          simp only [hv2] at he
          simp at he
  · intro r2 j2 t hp2 hj2 hv2
    simp only [hp2, hj2, hv2]
  · intro r2 hp2 hj2
    simp only [hp2, hj2]
  · intro r2 j2 retryIssues hp2 hj2 hv2
    simp only [hp2, hj2, hv2]

/-- Witness for C7 at a concrete scenario: the retry's response also fails
validation, so two messages are sent and the tagged failure names the
schema label. -/
theorem complete_single_validation_retry_witness :
    ((completeModel "pulse_matching" "match these" (fun _ => .ok "raw")
        (fun _ => some ())
        (fun _ => (.error [⟨"matches", "Required"⟩] :
          Except (List ValidationIssue) Unit))).sentMessages =
      ["match these", "match these" ++ retrySuffix [⟨"matches", "Required"⟩]]) :=
  (complete_single_validation_retry "pulse_matching" "match these"
    (fun _ => .ok "raw") (fun _ => some ())
    (fun _ => (.error [⟨"matches", "Required"⟩] : Except (List ValidationIssue) Unit))
    "raw" () [⟨"matches", "Required"⟩] rfl rfl rfl).1

/-! ## Claim C8 -/

/-- C8: in the per-FR loop of `runTriage`, a thrown exception while
processing one FR is caught at that FR's boundary and recorded in that
FR's error list (via the fallback result), and every remaining FR in the
batch is still processed: the result list has one entry per FR, the i-th
entry is the fallback carrying the error when the i-th FR's processing
threw, and the processed result otherwise. -/
theorem runTriage_fr_boundary (frs : List FeatureRequest)
    (process : FeatureRequest → Except String FRProcessingResult) :
    (runTriageResults frs process).length = frs.length ∧
    (∀ (i : Nat) (fr : FeatureRequest), frs[i]? = some fr →
      (∀ e, process fr = .error e →
        (runTriageResults frs process)[i]? = some (errorResultFor fr e) ∧
        (errorResultFor fr e).errors = [e]) ∧
      (∀ r, process fr = .ok r → (runTriageResults frs process)[i]? = some r)) := by
  constructor
  · simp [runTriageResults]
  · intro i fr hfr
    constructor
    · intro e he
      constructor
      · rw [runTriageResults, List.getElem?_map, hfr]
        simp [he]
      · rfl
    · intro r hr
      rw [runTriageResults, List.getElem?_map, hfr]
      simp [hr]

/-- Witness for C8: a two-FR batch whose first FR throws; the first result
is the fallback error result and the second FR is still processed. -/
theorem runTriage_fr_boundary_witness :
    ((runTriageResults [⟨"a", "t1", "u1", "c1", [], []⟩, ⟨"b", "t2", "u2", "c2", [], []⟩]
        (fun fr => if fr.id == "a" then .error "boom" else .ok (initialFRResult fr)))[0]? =
      some (errorResultFor ⟨"a", "t1", "u1", "c1", [], []⟩ "boom")) ∧
    ((runTriageResults [⟨"a", "t1", "u1", "c1", [], []⟩, ⟨"b", "t2", "u2", "c2", [], []⟩]
        (fun fr => if fr.id == "a" then .error "boom" else .ok (initialFRResult fr)))[1]? =
      some (initialFRResult ⟨"b", "t2", "u2", "c2", [], []⟩)) :=
  ⟨((runTriage_fr_boundary
      [⟨"a", "t1", "u1", "c1", [], []⟩, ⟨"b", "t2", "u2", "c2", [], []⟩]
      (fun fr => if fr.id == "a" then .error "boom" else .ok (initialFRResult fr))).2
      0 ⟨"a", "t1", "u1", "c1", [], []⟩ rfl).1 "boom" rfl
      |>.1,
   ((runTriage_fr_boundary
      [⟨"a", "t1", "u1", "c1", [], []⟩, ⟨"b", "t2", "u2", "c2", [], []⟩]
      (fun fr => if fr.id == "a" then .error "boom" else .ok (initialFRResult fr))).2
      1 ⟨"b", "t2", "u2", "c2", [], []⟩ rfl).2
      (initialFRResult ⟨"b", "t2", "u2", "c2", [], []⟩) rfl⟩

/-! ## Claim C10 -/

/-- C10: `processFR` is total over its collaborators' behaviour (the model
is a total function of the arbitrary stage outcomes, so no combination of
throwing collaborators escapes it). The returned result always carries the
input FR's id and title; results computed by earlier stages are preserved
regardless of later failures (the alignment once the alignment call
succeeded, the belongs flag once its audit write also succeeded, the Pulse
matches once the Pulse stage succeeded); and the error list is empty
exactly when every consulted stage succeeded — in particular it is
non-empty whenever some stage threw. -/
theorem processFR_total_and_preserving (fr : FeatureRequest) (productName : String)
    (pulseStageOn ideaStageOn : Bool) (st : FRStageOutcomes) :
    ((processFRModel fr productName pulseStageOn ideaStageOn st).frId = fr.id ∧
     (processFRModel fr productName pulseStageOn ideaStageOn st).frTitle = fr.title) ∧
    (∀ al, st.headerWrite = .ok () → st.alignment = .ok al →
      (processFRModel fr productName pulseStageOn ideaStageOn st).alignment = al) ∧
    (∀ al, st.headerWrite = .ok () → st.alignment = .ok al →
      st.alignmentAuditWrite = .ok () →
      (processFRModel fr productName pulseStageOn ideaStageOn st).belongsToProduct =
        belongsToProductCheck al.verdict productName) ∧
    (∀ al pm, st.headerWrite = .ok () → st.alignment = .ok al →
      st.alignmentAuditWrite = .ok () →
      (belongsToProductCheck al.verdict productName = false →
        st.misalignmentWrite = .ok ()) →
      pulseStageOn = true → st.pulse = .ok pm →
      (processFRModel fr productName pulseStageOn ideaStageOn st).pulseMatches = pm) ∧
    ((processFRModel fr productName pulseStageOn ideaStageOn st).errors = [] ↔
      (st.headerWrite = .ok () ∧ ∃ al, st.alignment = .ok al ∧
        st.alignmentAuditWrite = .ok () ∧
        (belongsToProductCheck al.verdict productName = false →
          st.misalignmentWrite = .ok ()) ∧
        (pulseStageOn = true → ∃ pm, st.pulse = .ok pm) ∧
        (ideaStageOn = true → ∃ im, st.ideas = .ok im))) := by
  obtain ⟨hw, alg, aw, mw, pu, idn⟩ := st
  cases hw with
  | error e => simp [processFRModel, initialFRResult, frErrMsg]
  | ok u =>
    cases u
    cases alg with
    | error e => simp [processFRModel, initialFRResult, frErrMsg]
    | ok al =>
      cases aw with
      | error e => simp [processFRModel, initialFRResult, frErrMsg]
      | ok u2 =>
        cases u2
        by_cases hb : belongsToProductCheck al.verdict productName = true
        · cases pulseStageOn with
          | true =>
            cases pu with
            | error e =>
              simp [processFRModel, processPulseStage, initialFRResult, frErrMsg, hb]
            | ok pm =>
              cases ideaStageOn with
              | true =>
                cases idn with
                | error e =>
                  simp [processFRModel, processPulseStage, processIdeaStage,
                    initialFRResult, frErrMsg, hb]
                | ok im =>
                  simp [processFRModel, processPulseStage, processIdeaStage,
                    initialFRResult, frErrMsg, hb]
              | false =>
                simp [processFRModel, processPulseStage, processIdeaStage,
                  initialFRResult, frErrMsg, hb]
          | false =>
            cases ideaStageOn with
            | true =>
              cases idn with
              | error e =>
                simp [processFRModel, processPulseStage, processIdeaStage,
                  initialFRResult, frErrMsg, hb]
              | ok im =>
                simp [processFRModel, processPulseStage, processIdeaStage,
                  initialFRResult, frErrMsg, hb]
            | false =>
              simp [processFRModel, processPulseStage, processIdeaStage,
                initialFRResult, frErrMsg, hb]
        · have hb' : belongsToProductCheck al.verdict productName = false :=
            Bool.not_eq_true _ ▸ Bool.eq_false_iff.mpr (fun h => hb h)
          cases mw with
          | error e =>
            simp [processFRModel, initialFRResult, frErrMsg, hb']
            rintro al' pm rfl hck
            simp [hb'] at hck
          | ok u3 =>
            cases u3
            cases pulseStageOn with
            | true =>
              cases pu with
              | error e =>
                simp [processFRModel, processPulseStage, initialFRResult, frErrMsg, hb']
              | ok pm =>
                cases ideaStageOn with
                | true =>
                  cases idn with
                  | error e =>
                    simp [processFRModel, processPulseStage, processIdeaStage,
                      initialFRResult, frErrMsg, hb']
                  | ok im =>
                    simp [processFRModel, processPulseStage, processIdeaStage,
                      initialFRResult, frErrMsg, hb']
                | false =>
                  simp [processFRModel, processPulseStage, processIdeaStage,
                    initialFRResult, frErrMsg, hb']
            | false =>
              cases ideaStageOn with
              | true =>
                cases idn with
                | error e =>
                  simp [processFRModel, processPulseStage, processIdeaStage,
                    initialFRResult, frErrMsg, hb']
                | ok im =>
                  simp [processFRModel, processPulseStage, processIdeaStage,
                    initialFRResult, frErrMsg, hb']
              | false =>
                simp [processFRModel, processPulseStage, processIdeaStage,
                  initialFRResult, frErrMsg, hb']

/-- Witness for C10 at a concrete failing Idea stage: the earlier
alignment, belongs flag and Pulse matches are preserved while the error
list records the failure. -/
theorem processFR_total_and_preserving_witness :
    (processFRModel ⟨"a", "t", "u", "c", [], []⟩ "Home" true true
        ⟨.ok (), .ok ⟨"Home", 1, "", "fits"⟩, .ok (), .ok (),
         .ok [⟨"11111111-1111-1111-1111-111111111111", 1, "r"⟩], .error "idea stage down"⟩).pulseMatches =
      [⟨"11111111-1111-1111-1111-111111111111", 1, "r"⟩] :=
  (processFR_total_and_preserving ⟨"a", "t", "u", "c", [], []⟩ "Home" true true
      ⟨.ok (), .ok ⟨"Home", 1, "", "fits"⟩, .ok (), .ok (),
       .ok [⟨"11111111-1111-1111-1111-111111111111", 1, "r"⟩], .error "idea stage down"⟩).2.2.2.1
    ⟨"Home", 1, "", "fits"⟩ [⟨"11111111-1111-1111-1111-111111111111", 1, "r"⟩]
    rfl rfl rfl (fun h => absurd h (by decide)) rfl rfl

end FRTriage
